import Mathlib

/-!
Verification of the trace-writing deep-equality comparator (deepequal.go).

The Go source is shallowly embedded as follows.  Values live on an explicit
heap: an address denotes the identity token that `reflect.Value.UnsafeAddr`
and `reflect.Value.Pointer` return.  A `reflect.Value` becomes `RVal`: either
the invalid (zero) value or a typed reference into the heap together with the
addressability flag that `reflect.Value.CanAddr` reports.  The recursion of
`deepValueEqual` is not total on this value space (unguarded cyclic values
recurse forever, as the Go code does), so the embedded function takes a fuel
argument and returns `none` when the fuel runs out; a run of the Go code that
terminates corresponds to `some` for every sufficiently large fuel.
-/

namespace DebugTools

/-- Identity tokens (the model of `uintptr` addresses). -/
abbrev Addr := Nat

/-- Static Go types, as far as the comparator observes them.  Struct types
are nominal and carry their field list in a separate environment, so that
recursive struct types are expressible. -/
inductive GoType where
  | TInt
  | TBool
  | TString
  | TArray (n : Nat) (elem : GoType)
  | TSlice (elem : GoType)
  | TMap (key val : GoType)
  | TPtr (elem : GoType)
  | TStruct (name : String)
  | TInterface
  | TFunc
deriving DecidableEq, Repr

/-- `hard` from the source (lines 79-85): the kinds whose comparisons are
guarded by the visited set. -/
def hard : GoType → Bool
  | GoType.TArray _ _ => true
  | GoType.TMap _ _ => true
  | GoType.TSlice _ => true
  | GoType.TStruct _ => true
  | _ => false

/-- Scalar payloads (the kinds the default branch of the switch compares). -/
inductive Scalar where
  | SInt (i : Int)
  | SBool (b : Bool)
  | SString (s : String)
deriving DecidableEq, Repr

/-- A heap cell: one Go object. For slices and maps, `none` is the nil
variant and the `Nat` in the payload is the token `reflect.Value.Pointer`
returns (the underlying storage identity). -/
inductive Obj where
  | scalar (s : Scalar)
  | arr (elems : List Addr)
  | slice (c : Option (Nat × List Addr))
  | omap (c : Option (Nat × List (Scalar × Addr)))
  | strukt (fields : List Addr)
  | iface (payload : Option (GoType × Addr))
  | ptr (target : Option Addr)
  | func (isNil : Bool)
deriving DecidableEq, Repr

/-- The heap: cell `a` of the list is the object at address `a`. -/
abbrev Heap := List Obj

def heapGet (h : Heap) (a : Addr) : Obj := h.getD a (Obj.scalar (Scalar.SInt 0))

/-- The struct-type environment: name of the struct type to its ordered
field list (name and type of each field). -/
abbrev Prog := List (String × List (String × GoType))

def structFields (P : Prog) (name : String) : List (String × GoType) :=
  (P.lookup name).getD []

/-- The model of `reflect.Value`: invalid, or a typed reference into the
heap with the `CanAddr` flag. -/
inductive RVal where
  | invalid
  | ref (ty : GoType) (addr : Addr) (canAddr : Bool)
deriving DecidableEq, Repr

def RVal.isValid : RVal → Bool
  | RVal.invalid => false
  | RVal.ref _ _ _ => true

/-- The address of a reference value (0 for the invalid value). -/
def RVal.addrD : RVal → Addr
  | RVal.invalid => 0
  | RVal.ref _ a _ => a

/-- `visit` from the source (lines 23-27). -/
structure Visit where
  a1 : Addr
  a2 : Addr
  typ : GoType
deriving DecidableEq, Repr

/-- `deepEqualState` from the source (lines 29-34); the `io.Writer` becomes
the accumulated output string. -/
structure DES where
  visited : List Visit
  depth : Int
  sub : Bool
  out : String
deriving DecidableEq, Repr

def indentStr (n : Nat) : String := String.join (List.replicate n "  ")

/-- Shared body of `println`/`printf` (lines 36-52): consume the one-shot
`sub` flag, or indent by the current depth when it is positive. -/
def emit (s : DES) (text : String) : DES :=
  if s.sub then { s with sub := false, out := s.out ++ text }
  else if s.depth > 0 then { s with out := s.out ++ (indentStr s.depth.toNat ++ text) }
  else { s with out := s.out ++ text }

def DES.println (s : DES) (text : String) : DES := emit s (text ++ "\n")

def DES.printf (s : DES) (text : String) : DES := emit s text

/-- Renders a Go type as `fmt` does (`reflect.Type` prints its name). -/
def typeStr : GoType → String
  | GoType.TInt => "int"
  | GoType.TBool => "bool"
  | GoType.TString => "string"
  | GoType.TArray n t => "[" ++ toString n ++ "]" ++ typeStr t
  | GoType.TSlice t => "[]" ++ typeStr t
  | GoType.TMap k v => "map[" ++ typeStr k ++ "]" ++ typeStr v
  | GoType.TPtr t => "*" ++ typeStr t
  | GoType.TStruct n => n
  | GoType.TInterface => "interface \x7b\x7d"
  | GoType.TFunc => "func()"

def scalarRepr : Scalar → String
  | Scalar.SInt i => toString i
  | Scalar.SBool b => toString b
  | Scalar.SString s => "\"" ++ s ++ "\""

/-- Renders a value as `fmt`'s `%#v` verb does.  The recursion is
depth-bounded by a fuel argument: `%#v` on a cyclic value does not
terminate in Go either, and no comparison decision depends on this text. -/
def goRepr (P : Prog) (h : Heap) : Nat → GoType → Addr → String
  | 0, t, _ => typeStr t ++ "(...)"
  | fuel+1, t, a =>
    match t, heapGet h a with
    | _, Obj.scalar sc => scalarRepr sc
    | GoType.TSlice et, Obj.slice none => typeStr (GoType.TSlice et) ++ "(nil)"
    | GoType.TSlice et, Obj.slice (some (_, es)) =>
        typeStr (GoType.TSlice et) ++ "\x7b" ++
          String.intercalate ", " (es.map (goRepr P h fuel et)) ++ "\x7d"
    | GoType.TArray n et, Obj.arr es =>
        typeStr (GoType.TArray n et) ++ "\x7b" ++
          String.intercalate ", " (es.map (goRepr P h fuel et)) ++ "\x7d"
    | GoType.TMap kt vt, Obj.omap none => typeStr (GoType.TMap kt vt) ++ "(nil)"
    | GoType.TMap kt vt, Obj.omap (some (_, es)) =>
        typeStr (GoType.TMap kt vt) ++ "\x7b" ++
          String.intercalate ", "
            (es.map (fun kv => scalarRepr kv.1 ++ ":" ++ goRepr P h fuel vt kv.2)) ++ "\x7d"
    | GoType.TStruct nm, Obj.strukt fas =>
        nm ++ "\x7b" ++
          String.intercalate ", "
            (((structFields P nm).zip fas).map
              (fun fa => fa.1.1 ++ ":" ++ goRepr P h fuel fa.1.2 fa.2)) ++ "\x7d"
    | GoType.TPtr et, Obj.ptr (some tgt) => "&" ++ goRepr P h fuel et tgt
    | GoType.TPtr et, Obj.ptr none => "(" ++ typeStr (GoType.TPtr et) ++ ")(nil)"
    | GoType.TInterface, Obj.iface (some pt) => goRepr P h fuel pt.1 pt.2
    | GoType.TInterface, Obj.iface none => "<nil>"
    | t, _ => typeStr t ++ "(?)"

/-- How `fmt` renders a `reflect.Value` operand via its `String` method. -/
def rvalShow : RVal → String
  | RVal.invalid => "<invalid Value>"
  | RVal.ref t _ _ => "<" ++ typeStr t ++ " Value>"

def arrElems : Obj → List Addr
  | Obj.arr es => es
  | _ => []

def sliceIsNil : Obj → Bool
  | Obj.slice none => true
  | _ => false

def sliceElems : Obj → List Addr
  | Obj.slice (some c) => c.2
  | _ => []

def sliceLen (o : Obj) : Nat := (sliceElems o).length

def slicePtr : Obj → Nat
  | Obj.slice (some c) => c.1
  | _ => 0

def mapIsNil : Obj → Bool
  | Obj.omap none => true
  | _ => false

def mapEntries : Obj → List (Scalar × Addr)
  | Obj.omap (some c) => c.2
  | _ => []

def mapLen (o : Obj) : Nat := (mapEntries o).length

def mapPtr : Obj → Nat
  | Obj.omap (some c) => c.1
  | _ => 0

def ifaceIsNil : Obj → Bool
  | Obj.iface none => true
  | _ => false

/-- `Elem` of a non-nil interface value: the payload, never addressable. -/
def ifacePayload : Obj → RVal
  | Obj.iface (some pt) => RVal.ref pt.1 pt.2 false
  | _ => RVal.invalid

/-- `Elem` of a pointer value: the pointee (addressable), or the zero
`Value` for a nil pointer. -/
def ptrElem (et : GoType) : Obj → RVal
  | Obj.ptr (some tgt) => RVal.ref et tgt true
  | _ => RVal.invalid

def funcIsNil : Obj → Bool
  | Obj.func b => b
  | _ => false

def scalarOf : Obj → Scalar
  | Obj.scalar sc => sc
  | _ => Scalar.SInt 0

def struktAddrs : Obj → List Addr
  | Obj.strukt fs => fs
  | _ => []

/-- Lookup by the map's own key equality (Go `==` on keys). -/
def mapLook : List (Scalar × Addr) → Scalar → Option Addr
  | [], _ => none
  | kv :: rest, q => if kv.1 = q then some kv.2 else mapLook rest q

/-- `v.MapIndex(k)`: the value at key `k`, not addressable; the zero
`Value` when the key is absent. -/
def mapIndex (h : Heap) (vt : GoType) (a : Addr) (k : Scalar) : RVal :=
  match mapLook (mapEntries (heapGet h a)) k with
  | some va => RVal.ref vt va false
  | none => RVal.invalid

/-- The element pairs of the array loop (lines 116-120): `Index i` of an
array inherits the array's addressability. -/
def arrPairs (h : Heap) (et : GoType) (c1 c2 : Bool) (a1 a2 : Addr) (n : Nat) :
    List (RVal × RVal) :=
  (List.range n).map (fun i =>
    (RVal.ref et ((arrElems (heapGet h a1)).getD i 0) c1,
     RVal.ref et ((arrElems (heapGet h a2)).getD i 0) c2))

/-- The element pairs of the slice loop (lines 137-141): `Index i` of a
slice is always addressable. -/
def slicePairs (h : Heap) (et : GoType) (a1 a2 : Addr) (n : Nat) :
    List (RVal × RVal) :=
  (List.range n).map (fun i =>
    (RVal.ref et ((sliceElems (heapGet h a1)).getD i 0) true,
     RVal.ref et ((sliceElems (heapGet h a2)).getD i 0) true))

/-- The labelled field triples of the struct loop (lines 155-161): the
label text of field `i`, then `Field i` of each side, inheriting the
struct's addressability. -/
def structItems (P : Prog) (h : Heap) (name : String) (c1 c2 : Bool) (a1 a2 : Addr) :
    List (String × RVal × RVal) :=
  let fs := structFields P name
  (List.range fs.length).map (fun i =>
    ("  " ++ (fs.getD i ("", GoType.TInt)).1 ++ ": ",
     RVal.ref (fs.getD i ("", GoType.TInt)).2 ((struktAddrs (heapGet h a1)).getD i 0) c1,
     RVal.ref (fs.getD i ("", GoType.TInt)).2 ((struktAddrs (heapGet h a2)).getD i 0) c2))

/-- The labelled entry triples of the map loop (lines 177-183): for each
key of the first map, the rendered key as label, then `MapIndex` of both
sides. -/
def mapItems (h : Heap) (vt : GoType) (a1 a2 : Addr) : List (String × RVal × RVal) :=
  (mapEntries (heapGet h a1)).map (fun kv =>
    (scalarRepr kv.1 ++ ": ", mapIndex h vt a1 kv.1, mapIndex h vt a2 kv.1))

/-- The `defer s.decDepth()` of line 67: decrement the depth on every
return path. -/
def stepDec (r : Option (Bool × DES)) : Option (Bool × DES) :=
  r.map (fun bs => (bs.1, { bs.2 with depth := bs.2.depth - 1 }))

/-- The fail-fast element loops (arrays and slices): run the comparisons
in order, stopping at the first `false`. -/
def feList (f : DES → RVal → RVal → Option (Bool × DES)) :
    DES → List (RVal × RVal) → Option (Bool × DES)
  | s, [] => some (true, s)
  | s, pq :: rest =>
    match f s pq.1 pq.2 with
    | none => none
    | some (false, s1) => some (false, s1)
    | some (true, s1) => feList f s1 rest

/-- The fail-fast labelled loops (structs and maps): print the label, set
the one-shot `sub` flag, compare, stopping at the first `false`. -/
def feListLab (f : DES → RVal → RVal → Option (Bool × DES)) :
    DES → List (String × RVal × RVal) → Option (Bool × DES)
  | s, [] => some (true, s)
  | s, it :: rest =>
    let s0 := { DES.printf s it.1 with sub := true }
    match f s0 it.2.1 it.2.2 with
    | none => none
    | some (false, s1) => some (false, s1)
    | some (true, s1) => feListLab f s1 rest

/-- The kind dispatch of `deepValueEqual` (the `switch v1.Kind()` of lines
113-202), factored out of the recursion: `rec` is the recursive call at the
remaining fuel. -/
def dveKind (P : Prog) (h : Heap) (rec : DES → RVal → RVal → Option (Bool × DES))
    (t1 : GoType) (a1 : Addr) (c1 : Bool) (a2 : Addr) (c2 : Bool) (sg : DES) :
    Option (Bool × DES) :=
  match t1 with
  | GoType.TArray n et =>
    let s1 := sg.println ("Comparing arrays of type: " ++ typeStr t1)
    feList rec s1 (arrPairs h et c1 c2 a1 a2 n)
  | GoType.TSlice et =>
    let s1 := sg.println ("Comparing slices of type: " ++ typeStr t1)
    let o1 := heapGet h a1
    let o2 := heapGet h a2
    if sliceIsNil o1 != sliceIsNil o2 then
      let s2 := s1.printf ("  " ++ goRepr P h (h.length+1) t1 a1 ++ " != " ++
        goRepr P h (h.length+1) t1 a2 ++ "\n")
      some (false, s2.println "  One of the slices is nil, so not equal")
    else if sliceLen o1 ≠ sliceLen o2 then
      some (false, s1.println "  Unequal lengths, so not equal")
    else if slicePtr o1 == slicePtr o2 then
      some (true, s1.println "  Pointers equal, so equal")
    else
      feList rec s1 (slicePairs h et a1 a2 (sliceLen o1))
  | GoType.TInterface =>
    let s1 := sg.println ("Comparing interfaces of type: " ++ typeStr t1)
    let o1 := heapGet h a1
    let o2 := heapGet h a2
    if ifaceIsNil o1 || ifaceIsNil o2 then
      some ((ifaceIsNil o1 == ifaceIsNil o2),
        s1.println "  One of the interfaces is nil, so not equal")
    else
      rec s1 (ifacePayload o1) (ifacePayload o2)
  | GoType.TPtr et =>
    let s1 := sg.println ("Comparing pointers of type: " ++ typeStr t1)
    rec s1 (ptrElem et (heapGet h a1)) (ptrElem et (heapGet h a2))
  | GoType.TStruct name =>
    let s1 := sg.println ("Comparing structs of type: " ++ typeStr t1)
    feListLab rec s1 (structItems P h name c1 c2 a1 a2)
  | GoType.TMap _kt vt =>
    let s1 := sg.println ("Comparing map of type: " ++ typeStr t1)
    let o1 := heapGet h a1
    let o2 := heapGet h a2
    if mapIsNil o1 != mapIsNil o2 then
      some (false, s1.println "  One of the maps is nil, so not equal")
    else if mapLen o1 ≠ mapLen o2 then
      some (false, s1.println "  Lengths don't match, so not equal")
    else if mapPtr o1 == mapPtr o2 then
      some (true, s1.println "  Same pointer, so equal")
    else
      feListLab rec s1 (mapItems h vt a1 a2)
  | GoType.TFunc =>
    if funcIsNil (heapGet h a1) && funcIsNil (heapGet h a2) then
      some (true, sg.println "  Both nil functions, so equal")
    else
      some (false, sg.println "  Not both nil functions, so not equal")
  | _ =>
    let x := scalarOf (heapGet h a1)
    let y := scalarOf (heapGet h a2)
    if x = y then
      some (true, sg.printf (scalarRepr x ++ " == " ++ scalarRepr y ++ "\n"))
    else
      some (false, sg.printf (scalarRepr x ++ " != " ++ scalarRepr y ++ "\n"))

/-- `deepValueEqual` (lines 65-203), embedded with fuel: `none` means the
fuel ran out (the Go code is still recursing). -/
def deepValueEqual (P : Prog) (h : Heap) : Nat → DES → RVal → RVal → Option (Bool × DES)
  | 0, _, _, _ => none
  | fuel+1, s0, v1, v2 =>
    let s := { s0 with depth := s0.depth + 1 }
    stepDec
      (match v1, v2 with
       | RVal.ref t1 a1 c1, RVal.ref t2 a2 c2 =>
         if t1 ≠ t2 then
           some (false, s.println "Types don't match")
         else
           if c1 && c2 && hard t1 then
             let ad1 := if a1 > a2 then a2 else a1
             let ad2 := if a1 > a2 then a1 else a2
             if ad1 == ad2 then
               some (true, s.println "  Same address, so equal")
             else
               let vv : Visit := ⟨ad1, ad2, t1⟩
               if vv ∈ s.visited then
                 some (true, s.println "  Already visited, so equal")
               else
                 dveKind P h (fun st p q => deepValueEqual P h fuel st p q)
                   t1 a1 c1 a2 c2 { s with visited := vv :: s.visited }
           else
             dveKind P h (fun st p q => deepValueEqual P h fuel st p q) t1 a1 c1 a2 c2 s
       | _, _ =>
         some ((v1.isValid == v2.isValid),
           s.println ("Something is not valid: " ++ rvalShow v1 ++ " " ++ rvalShow v2)))

/-- A top-level argument of the public entry point: the untyped nil
interface, or a typed value. -/
inductive IfaceArg where
  | nilArg
  | val (ty : GoType) (addr : Addr)
deriving DecidableEq, Repr

/-- `DeepEqual` (lines 211-228): nil handling, the static type gate, then
a fresh state (`depth = -1`) and the comparator engine. -/
def DeepEqual (P : Prog) (h : Heap) (fuel : Nat) :
    IfaceArg → IfaceArg → Option (Bool × String)
  | IfaceArg.nilArg, IfaceArg.nilArg => some (true, "")
  | IfaceArg.nilArg, IfaceArg.val _ _ => some (false, "")
  | IfaceArg.val _ _, IfaceArg.nilArg => some (false, "")
  | IfaceArg.val t1 a1, IfaceArg.val t2 a2 =>
    if t1 ≠ t2 then some (false, "")
    else
      (deepValueEqual P h fuel { visited := [], depth := -1, sub := false, out := "" }
        (RVal.ref t1 a1 false) (RVal.ref t2 a2 false)).map
        (fun bs => (bs.1, bs.2.out))

/-- Modelled from the spec: the fail-fast element loop of the standard
library `reflect.DeepEqual`, the algorithm the traced version was derived
from (that function is not part of this repository).  State is the visited
set alone. -/
def rdeList (f : List Visit → RVal → RVal → Option (Bool × List Visit)) :
    List Visit → List (RVal × RVal) → Option (Bool × List Visit)
  | V, [] => some (true, V)
  | V, pq :: rest =>
    match f V pq.1 pq.2 with
    | none => none
    | some (false, V1) => some (false, V1)
    | some (true, V1) => rdeList f V1 rest

/-- Modelled from the spec: `deepValueEqual` of the standard library
`reflect.DeepEqual`, the algorithm the traced version was derived from
(that function is not part of this repository; the derivation added only
the trace writing).  Same decision procedure, no trace, the visited set as
the only state.  This is its kind dispatch. -/
def rdeKind (P : Prog) (h : Heap)
    (rec : List Visit → RVal → RVal → Option (Bool × List Visit))
    (t1 : GoType) (a1 : Addr) (c1 : Bool) (a2 : Addr) (c2 : Bool) (Vg : List Visit) :
    Option (Bool × List Visit) :=
  match t1 with
  | GoType.TArray n et =>
    rdeList rec Vg (arrPairs h et c1 c2 a1 a2 n)
  | GoType.TSlice et =>
    let o1 := heapGet h a1
    let o2 := heapGet h a2
    if sliceIsNil o1 != sliceIsNil o2 then
      some (false, Vg)
    else if sliceLen o1 ≠ sliceLen o2 then
      some (false, Vg)
    else if slicePtr o1 == slicePtr o2 then
      some (true, Vg)
    else
      rdeList rec Vg (slicePairs h et a1 a2 (sliceLen o1))
  | GoType.TInterface =>
    let o1 := heapGet h a1
    let o2 := heapGet h a2
    if ifaceIsNil o1 || ifaceIsNil o2 then
      some ((ifaceIsNil o1 == ifaceIsNil o2), Vg)
    else
      rec Vg (ifacePayload o1) (ifacePayload o2)
  | GoType.TPtr et =>
    rec Vg (ptrElem et (heapGet h a1)) (ptrElem et (heapGet h a2))
  | GoType.TStruct name =>
    rdeList rec Vg ((structItems P h name c1 c2 a1 a2).map (fun it => (it.2.1, it.2.2)))
  | GoType.TMap _kt vt =>
    let o1 := heapGet h a1
    let o2 := heapGet h a2
    if mapIsNil o1 != mapIsNil o2 then
      some (false, Vg)
    else if mapLen o1 ≠ mapLen o2 then
      some (false, Vg)
    else if mapPtr o1 == mapPtr o2 then
      some (true, Vg)
    else
      rdeList rec Vg ((mapItems h vt a1 a2).map (fun it => (it.2.1, it.2.2)))
  | GoType.TFunc =>
    if funcIsNil (heapGet h a1) && funcIsNil (heapGet h a2) then
      some (true, Vg)
    else
      some (false, Vg)
  | _ =>
    if scalarOf (heapGet h a1) = scalarOf (heapGet h a2) then
      some (true, Vg)
    else
      some (false, Vg)

/-- Modelled from the spec: the recursion of the untraced standard library
algorithm (see `rdeKind`). -/
def rdeValueEqual (P : Prog) (h : Heap) :
    Nat → List Visit → RVal → RVal → Option (Bool × List Visit)
  | 0, _, _, _ => none
  | fuel+1, V, v1, v2 =>
    match v1, v2 with
    | RVal.ref t1 a1 c1, RVal.ref t2 a2 c2 =>
      if t1 ≠ t2 then
        some (false, V)
      else
        if c1 && c2 && hard t1 then
          let ad1 := if a1 > a2 then a2 else a1
          let ad2 := if a1 > a2 then a1 else a2
          if ad1 == ad2 then
            some (true, V)
          else
            let vv : Visit := ⟨ad1, ad2, t1⟩
            if vv ∈ V then
              some (true, V)
            else
              rdeKind P h (fun W p q => rdeValueEqual P h fuel W p q)
                t1 a1 c1 a2 c2 (vv :: V)
        else
          rdeKind P h (fun W p q => rdeValueEqual P h fuel W p q) t1 a1 c1 a2 c2 V
    | _, _ => some ((v1.isValid == v2.isValid), V)

/-- Modelled from the spec: the entry point of the standard library
`reflect.DeepEqual` (not part of this repository), returning the verdict
alone. -/
def reflectDeepEqual (P : Prog) (h : Heap) (fuel : Nat) :
    IfaceArg → IfaceArg → Option Bool
  | IfaceArg.nilArg, IfaceArg.nilArg => some true
  | IfaceArg.nilArg, IfaceArg.val _ _ => some false
  | IfaceArg.val _ _, IfaceArg.nilArg => some false
  | IfaceArg.val t1 a1, IfaceArg.val t2 a2 =>
    if t1 ≠ t2 then some false
    else
      (rdeValueEqual P h fuel [] (RVal.ref t1 a1 false) (RVal.ref t2 a2 false)).map Prod.fst

/-- The scalar kinds, handled by the default branch of the switch. -/
def scalarKind : GoType → Bool
  | GoType.TInt => true
  | GoType.TBool => true
  | GoType.TString => true
  | _ => false

/-- Whether `pat` starts `hay` (character lists). -/
def frontMatch : List Char → List Char → Bool
  | [], _ => true
  | _ :: _, [] => false
  | c :: cs, d :: ds => c == d && frontMatch cs ds

/-- Whether `pat` occurs somewhere in `hay` (character lists). -/
def subOcc : List Char → List Char → Bool
  | pat, [] => pat.isEmpty
  | pat, d :: ds => frontMatch pat (d :: ds) || subOcc pat ds

/-- Whether `pat` occurs as a substring of `hay`; used to state which trace
lines a given run did or did not emit. -/
def strHasSub (hay pat : String) : Bool := subOcc pat.data hay.data

/-! Concrete fixtures used by counterexamples and witnesses.  Addresses are
indices into the heap lists. -/

/-- A one-element `[1]int` array holding `1`, at address 0. -/
def hArr1 : Heap := [Obj.arr [1], Obj.scalar (Scalar.SInt 1)]

def tyArr1 : GoType := GoType.TArray 1 GoType.TInt

/-- Two distinct `map[string]interface` maps, each containing itself at key
`"x"` (built in Go as `m := map[string]interface{}{}; m["x"] = m`).
Addresses 0 and 2 are the maps, 1 and 3 the interface values they store. -/
def tyMI : GoType := GoType.TMap GoType.TString GoType.TInterface

def hCyc2 : Heap :=
  [Obj.omap (some (10, [(Scalar.SString "x", 1)])),
   Obj.iface (some (tyMI, 0)),
   Obj.omap (some (20, [(Scalar.SString "x", 3)])),
   Obj.iface (some (tyMI, 2))]

/-- The struct environment for the self-referential record
`type S struct { m map[string]S }`. -/
def progS : Prog := [("S", [("m", GoType.TMap GoType.TString (GoType.TStruct "S"))])]

def tyS : GoType := GoType.TStruct "S"

/-- Fixture for the cyclic-record and symmetry claims.  Addresses 0 and 2
are two structurally identical self-referential records of type `S`
(`s.m["x"]` is `s` again, a cycle of length 2 through the map at address 1
resp. 3).  Additionally, two `map[int]S` maps `a` (address 4) and `b`
(address 5) with the same key set: at key 1 both hold the two cyclic
records, at key 2 they hold records that differ (nil map at 7 versus
empty map at 9).  `a` enumerates key 1 first, `b` enumerates key 2
first. -/
def hSym : Heap :=
  [Obj.strukt [1],
   Obj.omap (some (11, [(Scalar.SString "x", 0)])),
   Obj.strukt [3],
   Obj.omap (some (22, [(Scalar.SString "x", 2)])),
   Obj.omap (some (31, [(Scalar.SInt 1, 0), (Scalar.SInt 2, 6)])),
   Obj.omap (some (32, [(Scalar.SInt 2, 8), (Scalar.SInt 1, 2)])),
   Obj.strukt [7],
   Obj.omap none,
   Obj.strukt [9],
   Obj.omap (some (41, []))]

def tyIS : GoType := GoType.TMap GoType.TInt tyS

/-- Fixture for the map/array order claim: two `map[string]func()` maps
(addresses 0 and 1) holding the same single key/value pair (the non-nil
function at address 2), and two `[2]*int` arrays (addresses 3 and 4)
holding the same two pointers (addresses 5 and 6, pointing at equal
integers) in swapped index order. -/
def hOrd : Heap :=
  [Obj.omap (some (51, [(Scalar.SString "f", 2)])),
   Obj.omap (some (52, [(Scalar.SString "f", 2)])),
   Obj.func false,
   Obj.arr [5, 6],
   Obj.arr [6, 5],
   Obj.ptr (some 7),
   Obj.ptr (some 8),
   Obj.scalar (Scalar.SInt 7),
   Obj.scalar (Scalar.SInt 7)]

def tyMF : GoType := GoType.TMap GoType.TString GoType.TFunc

def tyAP : GoType := GoType.TArray 2 (GoType.TPtr GoType.TInt)

/-- Fixture exercising the visit-record insertion: two pointers (addresses
0 and 2) to two distinct empty structs of type `E` (addresses 1 and 3);
dereferencing makes the structs addressable, so the guard fires and
inserts the canonical pair (1, 3). -/
def hPtrS : Heap :=
  [Obj.ptr (some 1), Obj.strukt [], Obj.ptr (some 3), Obj.strukt []]

def progE : Prog := [("E", [])]

def tyPE : GoType := GoType.TPtr (GoType.TStruct "E")

/-- Forgets the trace-only state components: the verdict and the visited
set are all that the untraced reference algorithm computes. -/
def projV (r : Option (Bool × DES)) : Option (Bool × List Visit) :=
  r.map (fun bs => (bs.1, bs.2.visited))

@[simp] theorem projV_none : projV none = none := rfl

@[simp] theorem projV_some (b : Bool) (s : DES) :
    projV (some (b, s)) = some (b, s.visited) := rfl

@[simp] theorem emit_visited (s : DES) (t : String) : (emit s t).visited = s.visited := by
  simp only [emit]
  split
  · rfl
  · split <;> rfl

@[simp] theorem println_visited (s : DES) (t : String) :
    (DES.println s t).visited = s.visited := emit_visited s (t ++ "\n")

@[simp] theorem printf_visited (s : DES) (t : String) :
    (DES.printf s t).visited = s.visited := emit_visited s t

@[simp] theorem projV_stepDec (r : Option (Bool × DES)) :
    projV (stepDec r) = projV r := by
  cases r with
  | none => rfl
  | some bs => rfl

theorem feList_sim (f : DES → RVal → RVal → Option (Bool × DES))
    (g : List Visit → RVal → RVal → Option (Bool × List Visit))
    (hfg : ∀ st p q, projV (f st p q) = g st.visited p q) :
    ∀ (pairs : List (RVal × RVal)) (s : DES),
      projV (feList f s pairs) = rdeList g s.visited pairs := by
  intro pairs
  induction pairs with
  | nil => intro s; rfl
  | cons pq rest ih =>
    intro s
    simp only [feList, rdeList, ← hfg s pq.1 pq.2]
    cases hf : f s pq.1 pq.2 with
    | none => rfl
    | some bs =>
      rcases bs with ⟨b, s1⟩
      cases b
      · rfl
      · exact ih s1

theorem feListLab_sim (f : DES → RVal → RVal → Option (Bool × DES))
    (g : List Visit → RVal → RVal → Option (Bool × List Visit))
    (hfg : ∀ st p q, projV (f st p q) = g st.visited p q) :
    ∀ (items : List (String × RVal × RVal)) (s : DES),
      projV (feListLab f s items) =
        rdeList g s.visited (items.map (fun it => (it.2.1, it.2.2))) := by
  intro items
  induction items with
  | nil => intro s; rfl
  | cons it rest ih =>
    intro s
    have hv : ({ DES.printf s it.1 with sub := true } : DES).visited = s.visited := by
      simp
    simp only [feListLab, rdeList, List.map_cons, ← hv,
      ← hfg { DES.printf s it.1 with sub := true } it.2.1 it.2.2]
    cases hf : f { DES.printf s it.1 with sub := true } it.2.1 it.2.2 with
    | none => rfl
    | some bs =>
      rcases bs with ⟨b, s1⟩
      cases b
      · rfl
      · exact ih s1

theorem dveKind_sim (P : Prog) (h : Heap)
    (rec : DES → RVal → RVal → Option (Bool × DES))
    (grec : List Visit → RVal → RVal → Option (Bool × List Visit))
    (hrec : ∀ st p q, projV (rec st p q) = grec st.visited p q)
    (t1 : GoType) (a1 : Addr) (c1 : Bool) (a2 : Addr) (c2 : Bool) (sg : DES) :
    projV (dveKind P h rec t1 a1 c1 a2 c2 sg) =
      rdeKind P h grec t1 a1 c1 a2 c2 sg.visited := by
  cases t1 <;>
    simp only [dveKind, rdeKind] <;>
    first
      | (split_ifs <;>
          simp [feList_sim rec grec hrec, feListLab_sim rec grec hrec, hrec])
      | simp [feList_sim rec grec hrec, feListLab_sim rec grec hrec, hrec]

/-- Tracing is invisible to the verdict: the traced engine and the untraced
reference engine agree on the result and on the visited set, for every
fuel, state and pair of values. -/
theorem dve_sim (P : Prog) (h : Heap) :
    ∀ (fuel : Nat) (s : DES) (v1 v2 : RVal),
      projV (deepValueEqual P h fuel s v1 v2) =
        rdeValueEqual P h fuel s.visited v1 v2 := by
  intro fuel
  induction fuel with
  | zero => intro s v1 v2; rfl
  | succ fuel ih =>
    intro s v1 v2
    cases v1 with
    | invalid =>
      cases v2 with
      | invalid => simp [deepValueEqual, rdeValueEqual]
      | ref t2 a2 c2 => simp [deepValueEqual, rdeValueEqual]
    | ref t1 a1 c1 =>
      cases v2 with
      | invalid => simp [deepValueEqual, rdeValueEqual]
      | ref t2 a2 c2 =>
        by_cases ht : t1 = t2
        · subst ht
          simp only [deepValueEqual, rdeValueEqual, projV_stepDec]
          simp only [ne_eq, not_true_eq_false, if_false, reduceIte]
          by_cases hg : (c1 && c2 && hard t1) = true
          · rw [if_pos hg, if_pos hg]
            by_cases ha : ((if a1 > a2 then a2 else a1) == if a1 > a2 then a1 else a2) = true
            · rw [if_pos ha, if_pos ha]; simp
            · rw [if_neg ha, if_neg ha]
              by_cases hm :
                  (⟨if a1 > a2 then a2 else a1, if a1 > a2 then a1 else a2, t1⟩ : Visit) ∈
                    s.visited
              · rw [if_pos hm, if_pos hm]; simp
              · rw [if_neg hm, if_neg hm]
                rw [dveKind_sim P h _ _ (fun st p q => ih st p q)]
          · rw [if_neg hg, if_neg hg]
            rw [dveKind_sim P h _ _ (fun st p q => ih st p q)]
        · simp [deepValueEqual, rdeValueEqual, ht]

theorem dve_none_iff (P : Prog) (h : Heap) (fuel : Nat) (s : DES) (v1 v2 : RVal) :
    deepValueEqual P h fuel s v1 v2 = none ↔
      rdeValueEqual P h fuel s.visited v1 v2 = none := by
  rw [← dve_sim P h fuel s v1 v2]
  constructor
  · intro he; rw [he]; rfl
  · intro he
    cases hd : deepValueEqual P h fuel s v1 v2 with
    | none => rfl
    | some bs => rw [hd] at he; exact absurd he (by simp [projV])

/-- Claim C8: with two non-nil inputs of different static types the public
entry point returns `(false, "")`, with no trace and no descent. -/
theorem c8_type_mismatch (P : Prog) (h : Heap) (fuel : Nat) (t1 t2 : GoType)
    (a1 a2 : Addr) (hne : t1 ≠ t2) :
    DeepEqual P h fuel (IfaceArg.val t1 a1) (IfaceArg.val t2 a2) = some (false, "") := by
  simp [DeepEqual, hne]

theorem c8_type_mismatch_witness :
    GoType.TInt ≠ GoType.TBool ∧
      DeepEqual [] [] 5 (IfaceArg.val GoType.TInt 0) (IfaceArg.val GoType.TBool 1) =
        some (false, "") :=
  ⟨by decide, c8_type_mismatch [] [] 5 GoType.TInt GoType.TBool 0 1 (by decide)⟩

/-- Claim C5: a nil slice compared against a non-nil zero-length slice of
the same type is reported unequal, even though both have length 0. -/
theorem c5_nil_vs_empty_slice (P : Prog) (h : Heap) (fuel : Nat) (t : GoType)
    (a1 a2 : Addr) (p : Nat)
    (h1 : heapGet h a1 = Obj.slice none)
    (h2 : heapGet h a2 = Obj.slice (some (p, []))) :
    (DeepEqual P h (fuel+1) (IfaceArg.val (GoType.TSlice t) a1)
        (IfaceArg.val (GoType.TSlice t) a2)).map Prod.fst = some false := by
  simp [DeepEqual, deepValueEqual, dveKind, h1, h2, sliceIsNil, hard, stepDec]

theorem c5_nil_vs_empty_slice_witness :
    heapGet [Obj.slice none, Obj.slice (some (7, []))] 0 = Obj.slice none ∧
      heapGet [Obj.slice none, Obj.slice (some (7, []))] 1 = Obj.slice (some (7, [])) ∧
      (DeepEqual [] [Obj.slice none, Obj.slice (some (7, []))] 3
          (IfaceArg.val (GoType.TSlice GoType.TInt) 0)
          (IfaceArg.val (GoType.TSlice GoType.TInt) 1)).map Prod.fst = some false :=
  ⟨rfl, rfl,
    c5_nil_vs_empty_slice [] [Obj.slice none, Obj.slice (some (7, []))] 2
      GoType.TInt 0 1 7 rfl rfl⟩

/-- Claim C4: for every pair of inputs and every fuel, the verdict of the
trace-writing `DeepEqual` is the verdict of the standard library algorithm
it was derived from (embedded as `reflectDeepEqual`); in particular both
diverge on exactly the same inputs. -/
theorem c4_refines_reflect (P : Prog) (h : Heap) (fuel : Nat) (a1 a2 : IfaceArg) :
    (DeepEqual P h fuel a1 a2).map Prod.fst = reflectDeepEqual P h fuel a1 a2 := by
  cases a1 with
  | nilArg => cases a2 <;> rfl
  | val t1 x =>
    cases a2 with
    | nilArg => rfl
    | val t2 y =>
      by_cases ht : t1 = t2
      · subst ht
        simp only [DeepEqual, reflectDeepEqual, ne_eq, not_true_eq_false, if_false, reduceIte]
        have hs : projV (deepValueEqual P h fuel ⟨[], -1, false, ""⟩
              (RVal.ref t1 x false) (RVal.ref t1 y false)) =
            rdeValueEqual P h fuel [] (RVal.ref t1 x false) (RVal.ref t1 y false) :=
          dve_sim P h fuel ⟨[], -1, false, ""⟩ (RVal.ref t1 x false) (RVal.ref t1 y false)
        rw [← hs]
        cases deepValueEqual P h fuel ⟨[], -1, false, ""⟩
            (RVal.ref t1 x false) (RVal.ref t1 y false) with
        | none => rfl
        | some bs => rfl
      · simp [DeepEqual, reflectDeepEqual, ht]

/-- The cycle guard never fires on the two maps of `hCyc2` (they are never
addressable), so the untraced engine recurses forever: every fuel runs
out. -/
theorem rde_cyc2_div : ∀ (n : Nat) (V : List Visit),
    rdeValueEqual [] hCyc2 n V (RVal.ref tyMI 0 false) (RVal.ref tyMI 2 false) = none := by
  intro n
  induction n using Nat.strong_induction_on with
  | _ n ih =>
    match n with
    | 0 => intro V; rfl
    | 1 => intro V; rfl
    | (k+2) =>
      intro V
      have hk : rdeValueEqual [] hCyc2 k V
          (RVal.ref tyMI 0 false) (RVal.ref tyMI 2 false) = none :=
        ih k (by omega) V
      have e1 : rdeValueEqual [] hCyc2 (k+2) V
            (RVal.ref tyMI 0 false) (RVal.ref tyMI 2 false) =
          rdeList (fun W p q => rdeValueEqual [] hCyc2 (k+1) W p q) V
            [(RVal.ref GoType.TInterface 1 false, RVal.ref GoType.TInterface 3 false)] := rfl
      have e2 : rdeValueEqual [] hCyc2 (k+1) V
            (RVal.ref GoType.TInterface 1 false) (RVal.ref GoType.TInterface 3 false) =
          rdeValueEqual [] hCyc2 k V (RVal.ref tyMI 0 false) (RVal.ref tyMI 2 false) := rfl
      rw [e1]
      simp only [rdeList]
      rw [e2, hk]

/-- The two structurally identical self-referential records of `hSym`
(addresses 0 and 2) are reached only through non-addressable values, so
the guard never fires and the untraced engine recurses forever. -/
theorem rde_hSym_cyc : ∀ (n : Nat) (V : List Visit),
    rdeValueEqual progS hSym n V (RVal.ref tyS 0 false) (RVal.ref tyS 2 false) = none := by
  intro n
  induction n using Nat.strong_induction_on with
  | _ n ih =>
    match n with
    | 0 => intro V; rfl
    | 1 => intro V; rfl
    | (k+2) =>
      intro V
      have hk : rdeValueEqual progS hSym k V
          (RVal.ref tyS 0 false) (RVal.ref tyS 2 false) = none :=
        ih k (by omega) V
      have e1 : rdeValueEqual progS hSym (k+2) V
            (RVal.ref tyS 0 false) (RVal.ref tyS 2 false) =
          rdeList (fun W p q => rdeValueEqual progS hSym (k+1) W p q) V
            [(RVal.ref (GoType.TMap GoType.TString tyS) 1 false,
              RVal.ref (GoType.TMap GoType.TString tyS) 3 false)] := rfl
      have e2 : rdeValueEqual progS hSym (k+1) V
            (RVal.ref (GoType.TMap GoType.TString tyS) 1 false)
            (RVal.ref (GoType.TMap GoType.TString tyS) 3 false) =
          rdeList (fun W p q => rdeValueEqual progS hSym k W p q) V
            [(RVal.ref tyS 0 false, RVal.ref tyS 2 false)] := rfl
      rw [e1]
      simp only [rdeList]
      rw [e2]
      simp only [rdeList]
      rw [hk]

/-- Claim C2 (refuted): on two distinct maps that each contain themselves
(`m := map[string]interface{}{}; m["x"] = m`, twice), the comparison never
produces a verdict for any fuel: the Go code recurses without bound and
dies of stack exhaustion, a fatal condition. -/
theorem c2_engine_diverges (fuel : Nat) :
    DeepEqual [] hCyc2 fuel (IfaceArg.val tyMI 0) (IfaceArg.val tyMI 2) = none := by
  have hd : deepValueEqual [] hCyc2 fuel ⟨[], -1, false, ""⟩
      (RVal.ref tyMI 0 false) (RVal.ref tyMI 2 false) = none :=
    (dve_none_iff [] hCyc2 fuel ⟨[], -1, false, ""⟩ _ _).mpr (rde_cyc2_div fuel [])
  simp [DeepEqual, hd]

/-- Claim C3 (refuted): the two structurally identical self-referential
records at addresses 0 and 2 of `hSym` (each holds itself at `s.m["x"]`, a
cycle of length 2 through a map-typed field) never produce a verdict for
any fuel: the comparison does not terminate, instead of returning true. -/
theorem c3_cyclic_records_no_verdict (fuel : Nat) :
    DeepEqual progS hSym fuel (IfaceArg.val tyS 0) (IfaceArg.val tyS 2) = none := by
  have hd : deepValueEqual progS hSym fuel ⟨[], -1, false, ""⟩
      (RVal.ref tyS 0 false) (RVal.ref tyS 2 false) = none :=
    (dve_none_iff progS hSym fuel ⟨[], -1, false, ""⟩ _ _).mpr (rde_hSym_cyc fuel [])
  simp [DeepEqual, hd]

/-- Claim C10 (refuted): the verdict is not symmetric.  Comparing map `a`
against map `b` of `hSym` enumerates key 1 first and falls into the
unguarded cycle (no verdict for any fuel; the Go program aborts), while
comparing `b` against `a` enumerates key 2 first, finds the nil/non-nil
mismatch, and returns false. -/
theorem c10_asymmetric_verdicts :
    (∀ fuel : Nat,
      DeepEqual progS hSym fuel (IfaceArg.val tyIS 4) (IfaceArg.val tyIS 5) = none) ∧
      (DeepEqual progS hSym 9 (IfaceArg.val tyIS 5) (IfaceArg.val tyIS 4)).map Prod.fst =
        some false := by
  constructor
  · intro fuel
    have hr : ∀ V, rdeValueEqual progS hSym fuel V
        (RVal.ref tyIS 4 false) (RVal.ref tyIS 5 false) = none := by
      match fuel with
      | 0 => intro V; rfl
      | (k+1) =>
        intro V
        have e1 : rdeValueEqual progS hSym (k+1) V
              (RVal.ref tyIS 4 false) (RVal.ref tyIS 5 false) =
            rdeList (fun W p q => rdeValueEqual progS hSym k W p q) V
              [(RVal.ref tyS 0 false, RVal.ref tyS 2 false),
               (RVal.ref tyS 6 false, RVal.ref tyS 8 false)] := rfl
        rw [e1]
        simp only [rdeList]
        rw [rde_hSym_cyc k V]
    have hd : deepValueEqual progS hSym fuel ⟨[], -1, false, ""⟩
        (RVal.ref tyIS 4 false) (RVal.ref tyIS 5 false) = none :=
      (dve_none_iff progS hSym fuel ⟨[], -1, false, ""⟩ _ _).mpr (hr [])
    simp [DeepEqual, hd]
  · rfl

theorem emit_out_le (s : DES) (t : String) :
    s.out.length + t.length ≤ (emit s t).out.length := by
  simp only [emit]
  split
  · simp [String.length_append]
  · split <;> simp [String.length_append]

theorem println_out_lt (s : DES) (t : String) :
    s.out.length < (DES.println s t).out.length := by
  have hle := emit_out_le s (t ++ "\n")
  simp only [DES.println]
  have : (t ++ "\n").length = t.length + 1 := by
    simp only [String.length_append]; rfl
  omega

theorem printf_out_le (s : DES) (t : String) :
    s.out.length + t.length ≤ (DES.printf s t).out.length := emit_out_le s t

theorem feList_out (f : DES → RVal → RVal → Option (Bool × DES))
    (hf : ∀ st p q b st2, f st p q = some (b, st2) → st.out.length ≤ st2.out.length) :
    ∀ (pairs : List (RVal × RVal)) (s : DES) (b : Bool) (s2 : DES),
      feList f s pairs = some (b, s2) → s.out.length ≤ s2.out.length := by
  intro pairs
  induction pairs with
  | nil =>
    intro s b s2 hr
    simp only [feList] at hr
    cases hr; exact Nat.le_refl _
  | cons pq rest ih =>
    intro s b s2 hr
    simp only [feList] at hr
    cases hfv : f s pq.1 pq.2 with
    | none => rw [hfv] at hr; cases hr
    | some bs =>
      rw [hfv] at hr
      rcases bs with ⟨b1, s1⟩
      have h1 := hf s pq.1 pq.2 b1 s1 hfv
      cases b1 with
      | false => cases hr; exact h1
      | true => exact Nat.le_trans h1 (ih s1 b s2 hr)

theorem feListLab_out (f : DES → RVal → RVal → Option (Bool × DES))
    (hf : ∀ st p q b st2, f st p q = some (b, st2) → st.out.length ≤ st2.out.length) :
    ∀ (items : List (String × RVal × RVal)) (s : DES) (b : Bool) (s2 : DES),
      feListLab f s items = some (b, s2) → s.out.length ≤ s2.out.length := by
  intro items
  induction items with
  | nil =>
    intro s b s2 hr
    simp only [feListLab] at hr
    cases hr; exact Nat.le_refl _
  | cons it rest ih =>
    intro s b s2 hr
    simp only [feListLab] at hr
    have hlab : s.out.length ≤
        ({ DES.printf s it.1 with sub := true } : DES).out.length := by
      have := printf_out_le s it.1
      simp only [DES.printf] at this ⊢
      omega
    cases hfv : f { DES.printf s it.1 with sub := true } it.2.1 it.2.2 with
    | none => rw [hfv] at hr; cases hr
    | some bs =>
      rw [hfv] at hr
      rcases bs with ⟨b1, s1⟩
      have h1 := hf _ it.2.1 it.2.2 b1 s1 hfv
      cases b1 with
      | false => cases hr; omega
      | true => have h2 := ih s1 b s2 hr; omega

theorem dveKind_out (P : Prog) (h : Heap)
    (rec : DES → RVal → RVal → Option (Bool × DES))
    (hrec : ∀ st p q b st2, rec st p q = some (b, st2) → st.out.length ≤ st2.out.length)
    (t1 : GoType) (a1 : Addr) (c1 : Bool) (a2 : Addr) (c2 : Bool) (sg : DES)
    (b : Bool) (s2 : DES)
    (hr : dveKind P h rec t1 a1 c1 a2 c2 sg = some (b, s2)) :
    sg.out.length < s2.out.length := by
  cases t1 with
  | TArray n et =>
    simp only [dveKind] at hr
    have h1 := println_out_lt sg ("Comparing arrays of type: " ++ typeStr (GoType.TArray n et))
    have h2 := feList_out rec hrec _ _ b s2 hr
    omega
  | TSlice et =>
    simp only [dveKind] at hr
    split at hr
    · cases hr
      have h1 := println_out_lt sg ("Comparing slices of type: " ++ typeStr (GoType.TSlice et))
      have h2 := printf_out_le (DES.println sg ("Comparing slices of type: " ++ typeStr (GoType.TSlice et)))
        ("  " ++ goRepr P h (h.length+1) (GoType.TSlice et) a1 ++ " != " ++
          goRepr P h (h.length+1) (GoType.TSlice et) a2 ++ "\n")
      have h3 := println_out_lt (DES.printf
        (DES.println sg ("Comparing slices of type: " ++ typeStr (GoType.TSlice et)))
        ("  " ++ goRepr P h (h.length+1) (GoType.TSlice et) a1 ++ " != " ++
          goRepr P h (h.length+1) (GoType.TSlice et) a2 ++ "\n"))
        "  One of the slices is nil, so not equal"
      omega
    · split at hr
      · cases hr
        have h1 := println_out_lt sg ("Comparing slices of type: " ++ typeStr (GoType.TSlice et))
        have h3 := println_out_lt (DES.println sg
          ("Comparing slices of type: " ++ typeStr (GoType.TSlice et)))
          "  Unequal lengths, so not equal"
        omega
      · split at hr
        · cases hr
          have h1 := println_out_lt sg ("Comparing slices of type: " ++ typeStr (GoType.TSlice et))
          have h3 := println_out_lt (DES.println sg
            ("Comparing slices of type: " ++ typeStr (GoType.TSlice et)))
            "  Pointers equal, so equal"
          omega
        · have h1 := println_out_lt sg ("Comparing slices of type: " ++ typeStr (GoType.TSlice et))
          have h2 := feList_out rec hrec _ _ b s2 hr
          omega
  | TInterface =>
    simp only [dveKind] at hr
    split at hr
    · cases hr
      have h1 := println_out_lt sg ("Comparing interfaces of type: " ++ typeStr GoType.TInterface)
      have h3 := println_out_lt (DES.println sg
        ("Comparing interfaces of type: " ++ typeStr GoType.TInterface))
        "  One of the interfaces is nil, so not equal"
      omega
    · have h1 := println_out_lt sg ("Comparing interfaces of type: " ++ typeStr GoType.TInterface)
      have h2 := hrec _ _ _ b s2 hr
      omega
  | TPtr et =>
    simp only [dveKind] at hr
    have h1 := println_out_lt sg ("Comparing pointers of type: " ++ typeStr (GoType.TPtr et))
    have h2 := hrec _ _ _ b s2 hr
    omega
  | TStruct name =>
    simp only [dveKind] at hr
    have h1 := println_out_lt sg ("Comparing structs of type: " ++ typeStr (GoType.TStruct name))
    have h2 := feListLab_out rec hrec _ _ b s2 hr
    omega
  | TMap kt vt =>
    simp only [dveKind] at hr
    split at hr
    · cases hr
      have h1 := println_out_lt sg ("Comparing map of type: " ++ typeStr (GoType.TMap kt vt))
      have h3 := println_out_lt (DES.println sg
        ("Comparing map of type: " ++ typeStr (GoType.TMap kt vt)))
        "  One of the maps is nil, so not equal"
      omega
    · split at hr
      · cases hr
        have h1 := println_out_lt sg ("Comparing map of type: " ++ typeStr (GoType.TMap kt vt))
        have h3 := println_out_lt (DES.println sg
          ("Comparing map of type: " ++ typeStr (GoType.TMap kt vt)))
          "  Lengths don't match, so not equal"
        omega
      · split at hr
        · cases hr
          have h1 := println_out_lt sg ("Comparing map of type: " ++ typeStr (GoType.TMap kt vt))
          have h3 := println_out_lt (DES.println sg
            ("Comparing map of type: " ++ typeStr (GoType.TMap kt vt)))
            "  Same pointer, so equal"
          omega
        · have h1 := println_out_lt sg ("Comparing map of type: " ++ typeStr (GoType.TMap kt vt))
          have h2 := feListLab_out rec hrec _ _ b s2 hr
          omega
  | TFunc =>
    simp only [dveKind] at hr
    split at hr
    · cases hr; exact println_out_lt sg "  Both nil functions, so equal"
    · cases hr; exact println_out_lt sg "  Not both nil functions, so not equal"
  | TInt =>
    simp only [dveKind] at hr
    split at hr
    · cases hr
      have := printf_out_le sg (scalarRepr (scalarOf (heapGet h a1)) ++ " == " ++
        scalarRepr (scalarOf (heapGet h a2)) ++ "\n")
      have hlen : (scalarRepr (scalarOf (heapGet h a1)) ++ " == " ++
          scalarRepr (scalarOf (heapGet h a2)) ++ "\n").length =
          (scalarRepr (scalarOf (heapGet h a1)) ++ " == " ++
            scalarRepr (scalarOf (heapGet h a2))).length + 1 := by
        simp only [String.length_append]; rfl
      omega
    · cases hr
      have := printf_out_le sg (scalarRepr (scalarOf (heapGet h a1)) ++ " != " ++
        scalarRepr (scalarOf (heapGet h a2)) ++ "\n")
      have hlen : (scalarRepr (scalarOf (heapGet h a1)) ++ " != " ++
          scalarRepr (scalarOf (heapGet h a2)) ++ "\n").length =
          (scalarRepr (scalarOf (heapGet h a1)) ++ " != " ++
            scalarRepr (scalarOf (heapGet h a2))).length + 1 := by
        simp only [String.length_append]; rfl
      omega
  | TBool =>
    simp only [dveKind] at hr
    split at hr
    · cases hr
      have := printf_out_le sg (scalarRepr (scalarOf (heapGet h a1)) ++ " == " ++
        scalarRepr (scalarOf (heapGet h a2)) ++ "\n")
      have hlen : (scalarRepr (scalarOf (heapGet h a1)) ++ " == " ++
          scalarRepr (scalarOf (heapGet h a2)) ++ "\n").length =
          (scalarRepr (scalarOf (heapGet h a1)) ++ " == " ++
            scalarRepr (scalarOf (heapGet h a2))).length + 1 := by
        simp only [String.length_append]; rfl
      omega
    · cases hr
      have := printf_out_le sg (scalarRepr (scalarOf (heapGet h a1)) ++ " != " ++
        scalarRepr (scalarOf (heapGet h a2)) ++ "\n")
      have hlen : (scalarRepr (scalarOf (heapGet h a1)) ++ " != " ++
          scalarRepr (scalarOf (heapGet h a2)) ++ "\n").length =
          (scalarRepr (scalarOf (heapGet h a1)) ++ " != " ++
            scalarRepr (scalarOf (heapGet h a2))).length + 1 := by
        simp only [String.length_append]; rfl
      omega
  | TString =>
    simp only [dveKind] at hr
    split at hr
    · cases hr
      have := printf_out_le sg (scalarRepr (scalarOf (heapGet h a1)) ++ " == " ++
        scalarRepr (scalarOf (heapGet h a2)) ++ "\n")
      have hlen : (scalarRepr (scalarOf (heapGet h a1)) ++ " == " ++
          scalarRepr (scalarOf (heapGet h a2)) ++ "\n").length =
          (scalarRepr (scalarOf (heapGet h a1)) ++ " == " ++
            scalarRepr (scalarOf (heapGet h a2))).length + 1 := by
        simp only [String.length_append]; rfl
      omega
    · cases hr
      have := printf_out_le sg (scalarRepr (scalarOf (heapGet h a1)) ++ " != " ++
        scalarRepr (scalarOf (heapGet h a2)) ++ "\n")
      have hlen : (scalarRepr (scalarOf (heapGet h a1)) ++ " != " ++
          scalarRepr (scalarOf (heapGet h a2)) ++ "\n").length =
          (scalarRepr (scalarOf (heapGet h a1)) ++ " != " ++
            scalarRepr (scalarOf (heapGet h a2))).length + 1 := by
        simp only [String.length_append]; rfl
      omega

/-- Every run of the engine that returns a verdict strictly extends the
trace: at least one log line is written on every path. -/
theorem dve_out (P : Prog) (h : Heap) :
    ∀ (fuel : Nat) (s : DES) (v1 v2 : RVal) (b : Bool) (s2 : DES),
      deepValueEqual P h fuel s v1 v2 = some (b, s2) → s.out.length < s2.out.length := by
  intro fuel
  induction fuel with
  | zero => intro s v1 v2 b s2 hr; simp [deepValueEqual] at hr
  | succ fuel ih =>
    intro s v1 v2 b s2 hr
    cases v1 with
    | invalid =>
      cases v2 with
      | invalid =>
        simp only [deepValueEqual, stepDec, Option.map_eq_some'] at hr
        obtain ⟨⟨b2, s2p⟩, hbody, heq⟩ := hr
        injection heq with h1 h2
        rw [← h2]
        show s.out.length < s2p.out.length
        cases hbody
        exact println_out_lt { s with depth := s.depth + 1 } _
      | ref t2 a2 c2 =>
        simp only [deepValueEqual, stepDec, Option.map_eq_some'] at hr
        obtain ⟨⟨b2, s2p⟩, hbody, heq⟩ := hr
        injection heq with h1 h2
        rw [← h2]
        show s.out.length < s2p.out.length
        cases hbody
        exact println_out_lt { s with depth := s.depth + 1 } _
    | ref t1 a1 c1 =>
      cases v2 with
      | invalid =>
        simp only [deepValueEqual, stepDec, Option.map_eq_some'] at hr
        obtain ⟨⟨b2, s2p⟩, hbody, heq⟩ := hr
        injection heq with h1 h2
        rw [← h2]
        show s.out.length < s2p.out.length
        cases hbody
        exact println_out_lt { s with depth := s.depth + 1 } _
      | ref t2 a2 c2 =>
        simp only [deepValueEqual, stepDec, Option.map_eq_some'] at hr
        obtain ⟨⟨b2, s2p⟩, hbody, heq⟩ := hr
        injection heq with h1 h2
        rw [← h2]
        show s.out.length < s2p.out.length
        split at hbody
        · cases hbody; exact println_out_lt { s with depth := s.depth + 1 } _
        · split at hbody
          · split at hbody
            all_goals
              split at hbody
              · cases hbody; exact println_out_lt { s with depth := s.depth + 1 } _
              · split at hbody
                · cases hbody; exact println_out_lt { s with depth := s.depth + 1 } _
                · have hkk := dveKind_out P h _
                    (fun st p q bx st2 hst => Nat.le_of_lt (ih st p q bx st2 hst))
                    _ _ _ _ _ _ b2 s2p hbody
                  exact hkk
          · have hkk := dveKind_out P h _
              (fun st p q bx st2 hst => Nat.le_of_lt (ih st p q bx st2 hst))
              _ _ _ _ _ _ b2 s2p hbody
            exact hkk

/-- Claim C7: whenever neither input is the untyped nil and the static
types agree (so the engine actually runs) and a verdict is produced, the
returned trace is non-empty. -/
theorem c7_trace_nonempty (P : Prog) (h : Heap) (fuel : Nat) (t : GoType)
    (a1 a2 : Addr) (b : Bool) (tr : String)
    (hrun : DeepEqual P h fuel (IfaceArg.val t a1) (IfaceArg.val t a2) = some (b, tr)) :
    tr ≠ "" := by
  simp only [DeepEqual, ne_eq, not_true_eq_false, if_false, reduceIte,
    Option.map_eq_some'] at hrun
  obtain ⟨⟨b2, s2⟩, hd, heq⟩ := hrun
  injection heq with hb htr
  rw [← htr]
  show s2.out ≠ ""
  have hlt := dve_out P h fuel ⟨[], -1, false, ""⟩ _ _ b2 s2 hd
  intro he
  rw [he] at hlt
  simp at hlt

theorem c7_trace_nonempty_witness :
    DeepEqual [] [Obj.scalar (Scalar.SInt 3)] 1
        (IfaceArg.val GoType.TInt 0) (IfaceArg.val GoType.TInt 0) =
      some (true, "3 == 3\n") ∧ "3 == 3\n" ≠ "" :=
  ⟨rfl, c7_trace_nonempty [] [Obj.scalar (Scalar.SInt 3)] 1 GoType.TInt 0 0 true
    "3 == 3\n" rfl⟩

theorem rdeList_vis (f : List Visit → RVal → RVal → Option (Bool × List Visit))
    (hf : ∀ (V : List Visit) (p q : RVal) (b : Bool) (V2 : List Visit),
      f V p q = some (b, V2) →
        (∀ e, e ∈ V → e ∈ V2) ∧ (∀ e, e ∈ V2 → e ∈ V ∨ e.a1 < e.a2)) :
    ∀ (pairs : List (RVal × RVal)) (V : List Visit) (b : Bool) (V2 : List Visit),
      rdeList f V pairs = some (b, V2) →
        (∀ e, e ∈ V → e ∈ V2) ∧ (∀ e, e ∈ V2 → e ∈ V ∨ e.a1 < e.a2) := by
  intro pairs
  induction pairs with
  | nil =>
    intro V b V2 hr
    simp only [rdeList] at hr
    cases hr
    exact ⟨fun e he => he, fun e he => Or.inl he⟩
  | cons pq rest ih =>
    intro V b V2 hr
    simp only [rdeList] at hr
    cases hfv : f V pq.1 pq.2 with
    | none => rw [hfv] at hr; cases hr
    | some bs =>
      rw [hfv] at hr
      rcases bs with ⟨b1, V1⟩
      have h1 := hf V pq.1 pq.2 b1 V1 hfv
      cases b1 with
      | false => cases hr; exact h1
      | true =>
        have h2 := ih V1 b V2 hr
        exact ⟨fun e he => h2.1 e (h1.1 e he),
          fun e he => (h2.2 e he).elim (fun hm => h1.2 e hm) Or.inr⟩

theorem rdeKind_vis (P : Prog) (h : Heap)
    (rec : List Visit → RVal → RVal → Option (Bool × List Visit))
    (hrec : ∀ (V : List Visit) (p q : RVal) (b : Bool) (V2 : List Visit),
      rec V p q = some (b, V2) →
        (∀ e, e ∈ V → e ∈ V2) ∧ (∀ e, e ∈ V2 → e ∈ V ∨ e.a1 < e.a2))
    (t1 : GoType) (a1 : Addr) (c1 : Bool) (a2 : Addr) (c2 : Bool)
    (Vg : List Visit) (b : Bool) (V2 : List Visit)
    (hr : rdeKind P h rec t1 a1 c1 a2 c2 Vg = some (b, V2)) :
    (∀ e, e ∈ Vg → e ∈ V2) ∧ (∀ e, e ∈ V2 → e ∈ Vg ∨ e.a1 < e.a2) := by
  cases t1 with
  | TArray n et =>
    simp only [rdeKind] at hr
    exact rdeList_vis rec hrec _ _ b V2 hr
  | TSlice et =>
    simp only [rdeKind] at hr
    split at hr
    · cases hr; exact ⟨fun e he => he, fun e he => Or.inl he⟩
    · split at hr
      · cases hr; exact ⟨fun e he => he, fun e he => Or.inl he⟩
      · split at hr
        · cases hr; exact ⟨fun e he => he, fun e he => Or.inl he⟩
        · exact rdeList_vis rec hrec _ _ b V2 hr
  | TInterface =>
    simp only [rdeKind] at hr
    split at hr
    · cases hr; exact ⟨fun e he => he, fun e he => Or.inl he⟩
    · exact hrec _ _ _ b V2 hr
  | TPtr et =>
    simp only [rdeKind] at hr
    exact hrec _ _ _ b V2 hr
  | TStruct name =>
    simp only [rdeKind] at hr
    exact rdeList_vis rec hrec _ _ b V2 hr
  | TMap kt vt =>
    simp only [rdeKind] at hr
    split at hr
    · cases hr; exact ⟨fun e he => he, fun e he => Or.inl he⟩
    · split at hr
      · cases hr; exact ⟨fun e he => he, fun e he => Or.inl he⟩
      · split at hr
        · cases hr; exact ⟨fun e he => he, fun e he => Or.inl he⟩
        · exact rdeList_vis rec hrec _ _ b V2 hr
  | TFunc =>
    simp only [rdeKind] at hr
    split at hr
    · cases hr; exact ⟨fun e he => he, fun e he => Or.inl he⟩
    · cases hr; exact ⟨fun e he => he, fun e he => Or.inl he⟩
  | TInt =>
    simp only [rdeKind] at hr
    split at hr
    · cases hr; exact ⟨fun e he => he, fun e he => Or.inl he⟩
    · cases hr; exact ⟨fun e he => he, fun e he => Or.inl he⟩
  | TBool =>
    simp only [rdeKind] at hr
    split at hr
    · cases hr; exact ⟨fun e he => he, fun e he => Or.inl he⟩
    · cases hr; exact ⟨fun e he => he, fun e he => Or.inl he⟩
  | TString =>
    simp only [rdeKind] at hr
    split at hr
    · cases hr; exact ⟨fun e he => he, fun e he => Or.inl he⟩
    · cases hr; exact ⟨fun e he => he, fun e he => Or.inl he⟩

/-- Visited-set invariant of the untraced engine: entries are only
inserted, never removed, and every inserted entry is canonical (smaller
identity strictly first). -/
theorem rde_vis (P : Prog) (h : Heap) :
    ∀ (fuel : Nat) (V : List Visit) (v1 v2 : RVal) (b : Bool) (V2 : List Visit),
      rdeValueEqual P h fuel V v1 v2 = some (b, V2) →
        (∀ e, e ∈ V → e ∈ V2) ∧ (∀ e, e ∈ V2 → e ∈ V ∨ e.a1 < e.a2) := by
  intro fuel
  induction fuel with
  | zero => intro V v1 v2 b V2 hr; simp [rdeValueEqual] at hr
  | succ fuel ih =>
    intro V v1 v2 b V2 hr
    cases v1 with
    | invalid =>
      cases v2 with
      | invalid =>
        simp only [rdeValueEqual] at hr
        cases hr; exact ⟨fun e he => he, fun e he => Or.inl he⟩
      | ref t2 a2 c2 =>
        simp only [rdeValueEqual] at hr
        cases hr; exact ⟨fun e he => he, fun e he => Or.inl he⟩
    | ref t1 a1 c1 =>
      cases v2 with
      | invalid =>
        simp only [rdeValueEqual] at hr
        cases hr; exact ⟨fun e he => he, fun e he => Or.inl he⟩
      | ref t2 a2 c2 =>
        simp only [rdeValueEqual] at hr
        split at hr
        · cases hr; exact ⟨fun e he => he, fun e he => Or.inl he⟩
        · split at hr
          · split at hr
            · rename_i hgt
              split at hr
              · cases hr; exact ⟨fun e he => he, fun e he => Or.inl he⟩
              · rename_i hadne
                split at hr
                · cases hr; exact ⟨fun e he => he, fun e he => Or.inl he⟩
                · have hvv : a2 < a1 := hgt
                  have hk := rdeKind_vis P h _ ih _ _ _ _ _ _ b V2 hr
                  refine ⟨fun e he => hk.1 e (List.mem_cons.mpr (Or.inr he)), ?_⟩
                  intro e he
                  rcases hk.2 e he with hm | hc
                  · rcases List.mem_cons.mp hm with hv | hV
                    · subst hv; exact Or.inr hvv
                    · exact Or.inl hV
                  · exact Or.inr hc
            · rename_i hngt
              split at hr
              · cases hr; exact ⟨fun e he => he, fun e he => Or.inl he⟩
              · rename_i hadne
                split at hr
                · cases hr; exact ⟨fun e he => he, fun e he => Or.inl he⟩
                · have hvv : a1 < a2 := by
                    have hne : a1 ≠ a2 := by
                      intro hcon
                      exact hadne (by simp [hcon])
                    exact Nat.lt_of_le_of_ne (Nat.le_of_not_lt hngt) hne
                  have hk := rdeKind_vis P h _ ih _ _ _ _ _ _ b V2 hr
                  refine ⟨fun e he => hk.1 e (List.mem_cons.mpr (Or.inr he)), ?_⟩
                  intro e he
                  rcases hk.2 e he with hm | hc
                  · rcases List.mem_cons.mp hm with hv | hV
                    · subst hv; exact Or.inr hvv
                    · exact Or.inl hV
                  · exact Or.inr hc
          · exact rdeKind_vis P h _ ih _ _ _ _ _ _ b V2 hr

/-- Claim C9: over any completed run of the traced engine, the visited set
only grows (no entry is ever deleted), and every entry present at the end
that was not present at the start is canonically ordered, smaller identity
strictly first. -/
theorem c9_visited_canonical (P : Prog) (h : Heap) (fuel : Nat) (s : DES)
    (v1 v2 : RVal) (b : Bool) (s2 : DES)
    (hrun : deepValueEqual P h fuel s v1 v2 = some (b, s2)) :
    (∀ e, e ∈ s.visited → e ∈ s2.visited) ∧
      (∀ e, e ∈ s2.visited → e ∈ s.visited ∨ e.a1 < e.a2) := by
  have hs := dve_sim P h fuel s v1 v2
  rw [hrun] at hs
  simp only [projV_some] at hs
  exact rde_vis P h fuel s.visited v1 v2 b s2.visited hs.symm

theorem c9_visited_canonical_witness :
    deepValueEqual progE hPtrS 3 ⟨[], -1, false, ""⟩
        (RVal.ref tyPE 0 false) (RVal.ref tyPE 2 false) =
      some (true, ⟨[⟨1, 3, GoType.TStruct "E"⟩], -1, false,
        "Comparing pointers of type: *E\n  Comparing structs of type: E\n"⟩) ∧
      ((∀ e, e ∈ ([] : List Visit) → e ∈ [(⟨1, 3, GoType.TStruct "E"⟩ : Visit)]) ∧
        (∀ e, e ∈ [(⟨1, 3, GoType.TStruct "E"⟩ : Visit)] →
          e ∈ ([] : List Visit) ∨ e.a1 < e.a2)) :=
  ⟨by decide, c9_visited_canonical progE hPtrS 3 ⟨[], -1, false, ""⟩
    (RVal.ref tyPE 0 false) (RVal.ref tyPE 2 false) true
    ⟨[⟨1, 3, GoType.TStruct "E"⟩], -1, false,
      "Comparing pointers of type: *E\n  Comparing structs of type: E\n"⟩ (by decide)⟩

/-- A one-step scalar comparison: both sides dispatch to the default
branch, which decides equality of the underlying scalars. -/
theorem dve_scalar_step (P : Prog) (h : Heap) (fuel : Nat) (st : DES) (et : GoType)
    (hs : scalarKind et = true) (x y : Addr) (cx cy : Bool) :
    ∃ st2, deepValueEqual P h (fuel+1) st (RVal.ref et x cx) (RVal.ref et y cy) =
      some (decide (scalarOf (heapGet h x) = scalarOf (heapGet h y)), st2) := by
  cases et <;> simp [scalarKind] at hs <;>
  · by_cases hxy : scalarOf (heapGet h x) = scalarOf (heapGet h y)
    · exact ⟨_, by simp [deepValueEqual, dveKind, stepDec, hard, hxy]; rfl⟩
    · exact ⟨_, by simp [deepValueEqual, dveKind, stepDec, hard, hxy]; rfl⟩

theorem dve_scalar_true (P : Prog) (h : Heap) (fuel : Nat) (st : DES) (et : GoType)
    (hs : scalarKind et = true) (x y : Addr) (cx cy : Bool)
    (hxy : scalarOf (heapGet h x) = scalarOf (heapGet h y)) :
    ∃ st2, deepValueEqual P h (fuel+1) st (RVal.ref et x cx) (RVal.ref et y cy) =
      some (true, st2) := by
  obtain ⟨st2, hst⟩ := dve_scalar_step P h fuel st et hs x y cx cy
  rw [hst]
  exact ⟨st2, by simp [hxy]⟩

/-- The labelled loop returns true when every item compares true. -/
theorem feListLab_allTrue (f : DES → RVal → RVal → Option (Bool × DES)) :
    ∀ (items : List (String × RVal × RVal)) (s : DES),
      (∀ (st : DES) it, it ∈ items → ∃ st2, f st it.2.1 it.2.2 = some (true, st2)) →
      ∃ s2, feListLab f s items = some (true, s2) := by
  intro items
  induction items with
  | nil => intro s _; exact ⟨s, rfl⟩
  | cons it rest ih =>
    intro s hall
    obtain ⟨st2, hst⟩ :=
      hall { DES.printf s it.1 with sub := true } it (List.mem_cons_self it rest)
    obtain ⟨s2, h2⟩ := ih st2 (fun st it2 hm => hall st it2 (List.mem_cons_of_mem _ hm))
    refine ⟨s2, ?_⟩
    simp only [feListLab]
    rw [hst]
    exact h2

/-- The plain loop computes the conjunction of a pointwise verdict
function over the pair list (fail-fast does not change the verdict). -/
theorem feList_verdict (f : DES → RVal → RVal → Option (Bool × DES))
    (g : RVal × RVal → Bool) :
    ∀ (pairs : List (RVal × RVal)),
      (∀ (st : DES) pq, pq ∈ pairs → ∃ st2, f st pq.1 pq.2 = some (g pq, st2)) →
      ∀ s, ∃ s2, feList f s pairs = some (pairs.all g, s2) := by
  intro pairs
  induction pairs with
  | nil => intro _ s; exact ⟨s, rfl⟩
  | cons pq rest ih =>
    intro hall s
    obtain ⟨st2, hst⟩ := hall s pq (List.mem_cons_self pq rest)
    cases hg : g pq with
    | false =>
      rw [hg] at hst
      refine ⟨st2, ?_⟩
      simp only [feList]
      rw [hst]
      simp [List.all_cons, hg]
    | true =>
      rw [hg] at hst
      obtain ⟨s2, h2⟩ := ih (fun st pq2 hm => hall st pq2 (List.mem_cons_of_mem _ hm)) st2
      refine ⟨s2, ?_⟩
      simp only [feList]
      rw [hst]
      simp [List.all_cons, hg]
      exact h2

theorem mapLook_of_mem (k : Scalar) (va : Addr) :
    ∀ (es : List (Scalar × Addr)), (k, va) ∈ es → (es.map Prod.fst).Nodup →
      mapLook es k = some va := by
  intro es
  induction es with
  | nil => intro hmem; cases hmem
  | cons kv rest ih =>
    intro hmem hnd
    rcases List.mem_cons.mp hmem with heq | htail
    · rcases kv with ⟨k0, v0⟩
      injection heq.symm with hk hv
      simp only [mapLook]
      rw [hk, hv]
      simp
    · have hkmem : k ∈ rest.map Prod.fst := List.mem_map.mpr ⟨(k, va), htail, rfl⟩
      simp only [List.map_cons, List.nodup_cons] at hnd
      have hk : ¬(kv.1 = k) := by
        intro hkk
        exact hnd.1 (hkk ▸ hkmem)
      simp only [mapLook, if_neg hk]
      exact ih htail hnd.2

theorem mapLook_perm (es1 es2 : List (Scalar × Addr)) (hperm : es1.Perm es2) :
    (es1.map Prod.fst).Nodup → ∀ k, mapLook es1 k = mapLook es2 k := by
  induction hperm with
  | nil => intro _ k; rfl
  | cons x hp ih =>
    intro hnd k
    simp only [mapLook]
    split
    · rfl
    · simp only [List.map_cons, List.nodup_cons] at hnd
      exact ih hnd.2 k
  | swap x y l =>
    intro hnd k
    simp only [mapLook]
    by_cases h1 : y.1 = k <;> by_cases h2 : x.1 = k
    · exfalso
      simp only [List.map_cons, List.nodup_cons, List.mem_cons] at hnd
      exact hnd.1 (Or.inl (h1.trans h2.symm))
    · simp [h1, h2]
    · simp [h1, h2]
    · simp [h1, h2]
  | trans hp1 hp2 ih1 ih2 =>
    intro hnd k
    rw [ih1 hnd k]
    exact ih2 ((hp1.map Prod.fst).nodup_iff.mp hnd) k

/-- Claim C6, amended.  Map half: two maps of the same type with scalar
values whose entry lists are permutations of each other (same key/value
pairs, any insertion order, keys not duplicated) compare equal.  Array
half: two arrays of the same scalar element type whose element values
differ at some index compare unequal. -/
theorem c6_map_order_free_array_order_sensitive (P : Prog) (h : Heap) (fuel : Nat) :
    (∀ (kt vt : GoType) (a1 a2 : Addr) (p1 p2 : Nat) (es1 es2 : List (Scalar × Addr)),
      scalarKind vt = true →
      heapGet h a1 = Obj.omap (some (p1, es1)) →
      heapGet h a2 = Obj.omap (some (p2, es2)) →
      es1.Perm es2 →
      (es1.map Prod.fst).Nodup →
      (DeepEqual P h (fuel+2) (IfaceArg.val (GoType.TMap kt vt) a1)
          (IfaceArg.val (GoType.TMap kt vt) a2)).map Prod.fst = some true) ∧
    (∀ (n : Nat) (et : GoType) (a1 a2 : Addr) (i : Nat),
      scalarKind et = true →
      i < n →
      scalarOf (heapGet h ((arrElems (heapGet h a1)).getD i 0)) ≠
        scalarOf (heapGet h ((arrElems (heapGet h a2)).getD i 0)) →
      (DeepEqual P h (fuel+2) (IfaceArg.val (GoType.TArray n et) a1)
          (IfaceArg.val (GoType.TArray n et) a2)).map Prod.fst = some false) := by
  constructor
  · intro kt vt a1 a2 p1 p2 es1 es2 hv h1 h2 hperm hnd
    have hlen : es1.length = es2.length := hperm.length_eq
    have hitems : ∀ (st : DES) it, it ∈ mapItems h vt a1 a2 →
        ∃ st2, deepValueEqual P h (fuel+1) st it.2.1 it.2.2 = some (true, st2) := by
      intro st it hm
      simp only [mapItems, mapEntries, h1, List.mem_map] at hm
      obtain ⟨kv, hkv, hit⟩ := hm
      have hl1 : mapLook es1 kv.1 = some kv.2 :=
        mapLook_of_mem kv.1 kv.2 es1 hkv hnd
      have hl2 : mapLook es2 kv.1 = some kv.2 := by
        rw [← mapLook_perm es1 es2 hperm hnd kv.1]
        exact hl1
      have hv1 : mapIndex h vt a1 kv.1 = RVal.ref vt kv.2 false := by
        simp [mapIndex, mapEntries, h1, hl1]
      have hv2 : mapIndex h vt a2 kv.1 = RVal.ref vt kv.2 false := by
        simp [mapIndex, mapEntries, h2, hl2]
      rw [← hit]
      simp only [hv1, hv2]
      exact dve_scalar_true P h fuel st vt hv kv.2 kv.2 false false rfl
    have hdve : ∃ st2, deepValueEqual P h (fuel+2) ⟨[], -1, false, ""⟩
        (RVal.ref (GoType.TMap kt vt) a1 false) (RVal.ref (GoType.TMap kt vt) a2 false) =
        some (true, st2) := by
      by_cases hpp : p1 = p2
      · exact ⟨_, by
          rw [deepValueEqual]
          simp [stepDec, dveKind, hard, h1, h2, mapIsNil, mapLen, mapEntries, mapPtr, hlen, hpp]
          rfl⟩
      · obtain ⟨s2, hfl⟩ := feListLab_allTrue (fun st p q => deepValueEqual P h (fuel+1) st p q)
          (mapItems h vt a1 a2)
          (DES.println ⟨[], 0, false, ""⟩ ("Comparing map of type: " ++ typeStr (GoType.TMap kt vt)))
          hitems
        exact ⟨_, by
          rw [deepValueEqual]
          simp [stepDec, dveKind, hard, h1, h2, mapIsNil, mapLen, mapEntries, mapPtr, hlen, hpp, hfl]
          rfl⟩
    obtain ⟨st2, hdve⟩ := hdve
    simp [DeepEqual, hdve]
  · intro n et a1 a2 i hs hi hne
    have hpairs : ∀ (st : DES) pq, pq ∈ arrPairs h et false false a1 a2 n →
        ∃ st2, deepValueEqual P h (fuel+1) st pq.1 pq.2 =
          some ((fun pq2 : RVal × RVal =>
            decide (scalarOf (heapGet h pq2.1.addrD) =
              scalarOf (heapGet h pq2.2.addrD))) pq, st2) := by
      intro st pq hm
      simp only [arrPairs, List.mem_map, List.mem_range] at hm
      obtain ⟨j, hj, hpq⟩ := hm
      rw [← hpq]
      simp only [RVal.addrD]
      exact dve_scalar_step P h fuel st et hs _ _ false false
    obtain ⟨s2, hfl⟩ := feList_verdict (fun st p q => deepValueEqual P h (fuel+1) st p q)
      _ (arrPairs h et false false a1 a2 n) hpairs
      (DES.println ⟨[], 0, false, ""⟩ ("Comparing arrays of type: " ++ typeStr (GoType.TArray n et)))
    have hall : (arrPairs h et false false a1 a2 n).all
        (fun pq2 : RVal × RVal =>
          decide (scalarOf (heapGet h pq2.1.addrD) =
            scalarOf (heapGet h pq2.2.addrD))) = false := by
      rw [List.all_eq_false]
      refine ⟨(RVal.ref et ((arrElems (heapGet h a1)).getD i 0) false,
               RVal.ref et ((arrElems (heapGet h a2)).getD i 0) false), ?_, ?_⟩
      · simp only [arrPairs, List.mem_map, List.mem_range]
        exact ⟨i, hi, rfl⟩
      · simp only [RVal.addrD, decide_eq_true_eq]
        exact hne
    rw [hall] at hfl
    have hdve : ∃ st2, deepValueEqual P h (fuel+2) ⟨[], -1, false, ""⟩
        (RVal.ref (GoType.TArray n et) a1 false) (RVal.ref (GoType.TArray n et) a2 false) =
        some (false, st2) := by
      exact ⟨_, by
        rw [deepValueEqual]
        simp [stepDec, dveKind, hard, hfl]
        rfl⟩
    obtain ⟨st2, hdve⟩ := hdve
    simp [DeepEqual, hdve]

/-- Claim C6 (as stated) is false on the code: the two maps of `hOrd` hold
the same single key/value pair (a non-nil function value) yet compare
unequal, and the two arrays of `hOrd` hold the same two pointers in
swapped index order yet compare equal. -/
theorem c6_as_stated_cx :
    (DeepEqual [] hOrd 5 (IfaceArg.val tyMF 0) (IfaceArg.val tyMF 1)).map Prod.fst =
        some false ∧
      (DeepEqual [] hOrd 5 (IfaceArg.val tyAP 3) (IfaceArg.val tyAP 4)).map Prod.fst =
        some true := ⟨by decide, by decide⟩

theorem c6_map_order_free_array_order_sensitive_witness :
    (scalarKind GoType.TInt = true ∧
      heapGet [Obj.omap (some (61, [(Scalar.SString "a", 2), (Scalar.SString "b", 3)])),
        Obj.omap (some (62, [(Scalar.SString "b", 3), (Scalar.SString "a", 2)])),
        Obj.scalar (Scalar.SInt 1), Obj.scalar (Scalar.SInt 2),
        Obj.arr [2, 3], Obj.arr [3, 2]] 0 =
        Obj.omap (some (61, [(Scalar.SString "a", 2), (Scalar.SString "b", 3)])) ∧
      (DeepEqual [] [Obj.omap (some (61, [(Scalar.SString "a", 2), (Scalar.SString "b", 3)])),
        Obj.omap (some (62, [(Scalar.SString "b", 3), (Scalar.SString "a", 2)])),
        Obj.scalar (Scalar.SInt 1), Obj.scalar (Scalar.SInt 2),
        Obj.arr [2, 3], Obj.arr [3, 2]] 5
          (IfaceArg.val (GoType.TMap GoType.TString GoType.TInt) 0)
          (IfaceArg.val (GoType.TMap GoType.TString GoType.TInt) 1)).map Prod.fst =
        some true) ∧
      (DeepEqual [] [Obj.omap (some (61, [(Scalar.SString "a", 2), (Scalar.SString "b", 3)])),
        Obj.omap (some (62, [(Scalar.SString "b", 3), (Scalar.SString "a", 2)])),
        Obj.scalar (Scalar.SInt 1), Obj.scalar (Scalar.SInt 2),
        Obj.arr [2, 3], Obj.arr [3, 2]] 5
          (IfaceArg.val (GoType.TArray 2 GoType.TInt) 4)
          (IfaceArg.val (GoType.TArray 2 GoType.TInt) 5)).map Prod.fst =
        some false :=
  ⟨⟨rfl, rfl,
    (c6_map_order_free_array_order_sensitive []
      [Obj.omap (some (61, [(Scalar.SString "a", 2), (Scalar.SString "b", 3)])),
        Obj.omap (some (62, [(Scalar.SString "b", 3), (Scalar.SString "a", 2)])),
        Obj.scalar (Scalar.SInt 1), Obj.scalar (Scalar.SInt 2),
        Obj.arr [2, 3], Obj.arr [3, 2]] 3).1
      GoType.TString GoType.TInt 0 1 61 62
      [(Scalar.SString "a", 2), (Scalar.SString "b", 3)]
      [(Scalar.SString "b", 3), (Scalar.SString "a", 2)]
      rfl rfl rfl (List.Perm.swap _ _ _) (by decide)⟩,
    (c6_map_order_free_array_order_sensitive []
      [Obj.omap (some (61, [(Scalar.SString "a", 2), (Scalar.SString "b", 3)])),
        Obj.omap (some (62, [(Scalar.SString "b", 3), (Scalar.SString "a", 2)])),
        Obj.scalar (Scalar.SInt 1), Obj.scalar (Scalar.SInt 2),
        Obj.arr [2, 3], Obj.arr [3, 2]] 3).2
      2 GoType.TInt 4 5 0 rfl (by decide) (by decide)⟩

theorem println_out_decomp (s : DES) (t : String) :
    ∃ pre, (DES.println s t).out = pre ++ (t ++ "\n") := by
  simp only [DES.println, emit]
  split
  · exact ⟨s.out, rfl⟩
  · split
    · exact ⟨s.out ++ indentStr s.depth.toNat,
        (String.append_assoc s.out (indentStr s.depth.toNat) (t ++ "\n")).symm⟩
    · exact ⟨s.out, rfl⟩

/-- Claim C1, amended.  Passing the same slice or map value (same
identity) to the public entry point returns true without recursing into
children, with the pointer short-circuit line in the trace; and whenever
both sides of a guarded comparison are addressable with the same address
(which never happens for the two top-level values themselves, since
`reflect.ValueOf` results are not addressable), the engine returns true
immediately and the trace shows the `Same address` short-circuit line. -/
theorem c1_identity_shortcircuits (P : Prog) (h : Heap) (fuel : Nat) :
    (∀ (t : GoType) (a : Addr), ∃ pre,
      DeepEqual P h (fuel+1) (IfaceArg.val (GoType.TSlice t) a)
          (IfaceArg.val (GoType.TSlice t) a) =
        some (true, pre ++ "  Pointers equal, so equal\n")) ∧
    (∀ (kt vt : GoType) (a : Addr), ∃ pre,
      DeepEqual P h (fuel+1) (IfaceArg.val (GoType.TMap kt vt) a)
          (IfaceArg.val (GoType.TMap kt vt) a) =
        some (true, pre ++ "  Same pointer, so equal\n")) ∧
    (∀ (t : GoType) (a : Addr) (s : DES), hard t = true →
      ∃ s2, deepValueEqual P h (fuel+1) s (RVal.ref t a true) (RVal.ref t a true) =
        some (true, s2) ∧ ∃ pre, s2.out = pre ++ "  Same address, so equal\n") := by
  refine ⟨?_, ?_, ?_⟩
  · intro t a
    exact ⟨_, by
      simp [DeepEqual, deepValueEqual, stepDec, dveKind, hard, DES.println, DES.printf,
        emit, indentStr]
      rfl⟩
  · intro kt vt a
    exact ⟨_, by
      simp [DeepEqual, deepValueEqual, stepDec, dveKind, hard, DES.println, DES.printf,
        emit, indentStr]
      rfl⟩
  · intro t a s ht
    refine ⟨_, ⟨by simp [deepValueEqual, stepDec, ht]; rfl, ?_⟩⟩
    obtain ⟨pre, hp⟩ :=
      println_out_decomp { s with depth := s.depth + 1 } "  Same address, so equal"
    exact ⟨pre, hp⟩

/-- Claim C1 (as stated) is false on the code: the same `[1]int` array
value passed to both sides of the public entry point is compared by
recursing into its element (the trace shows the `1 == 1` element line) and
the identity short-circuit line never appears, because top-level values
are not addressable. -/
theorem c1_as_stated_cx :
    DeepEqual [] hArr1 2 (IfaceArg.val tyArr1 0) (IfaceArg.val tyArr1 0) =
      some (true, "Comparing arrays of type: [1]int\n  1 == 1\n") ∧
      strHasSub "Comparing arrays of type: [1]int\n  1 == 1\n"
        "Same address, so equal" = false ∧
      strHasSub "Comparing arrays of type: [1]int\n  1 == 1\n" "1 == 1" = true :=
  ⟨by decide, by decide, by decide⟩

theorem c1_identity_shortcircuits_witness :
    (∃ pre, DeepEqual [] hArr1 1 (IfaceArg.val (GoType.TSlice GoType.TInt) 0)
        (IfaceArg.val (GoType.TSlice GoType.TInt) 0) =
      some (true, pre ++ "  Pointers equal, so equal\n")) ∧
      (hard (GoType.TStruct "E") = true ∧
        ∃ s2, deepValueEqual [] hArr1 1 ⟨[], -1, false, ""⟩
            (RVal.ref (GoType.TStruct "E") 0 true) (RVal.ref (GoType.TStruct "E") 0 true) =
          some (true, s2) ∧ ∃ pre, s2.out = pre ++ "  Same address, so equal\n") :=
  ⟨(c1_identity_shortcircuits [] hArr1 0).1 GoType.TInt 0,
   ⟨by decide, (c1_identity_shortcircuits [] hArr1 0).2.2 (GoType.TStruct "E") 0
      ⟨[], -1, false, ""⟩ (by decide)⟩⟩

end DebugTools
